import Mathlib

/-!
# Verification of the Dock-N-Deploy CI/CD engine

Shallow embedding of the pipeline execution engine of the
Soif2Sang/Dock-N-Deploy repository (Go), together with theorems checking
the natural-language specification against the code.

The embedding covers:
* `executePipeline` / `collectLogs` (the stage/job scheduler and the log
  batcher of the runner in `src/unnamed/part_002`),
* `WaitForContainer` and the `" && "` command join of the Docker executor
  (`src/unnamed/part_001`),
* `runPipelineLogic` (the rollback-capable orchestrator in
  `src/internal/api/runner.go`),
* `SanitizeProjectName` (`pkg/utils`, shown in `src/internal/api/runner.go`).

Go maps, channels and the database are modelled by explicit parameters:
Docker outcomes, persistence-call outcomes and the commit of the last
successful pipeline are inputs, and all database writes are collected into
an explicit event trace.
-/

namespace DockNDeploy

/-! ## Data model: pipeline configuration (internal/parser) -/

/-- A job of the pipeline config: stage name, container image and the
ordered command list (`script`). Mirrors `parser.Job`. -/
structure Job where
  stage : String
  image : String
  script : List String
  deriving Repr, DecidableEq

/-- A pipeline configuration: the ordered stage list and the job map.
Go's `map[string]Job` is modelled as an association list whose order
stands for one fixed map-iteration order. Mirrors `parser.PipelineConfig`. -/
structure PipelineConfig where
  stages : List String
  jobs : List (String × Job)
  deriving Repr, DecidableEq

/-! ## Container runtime outcomes (executor, src/unnamed/part_001) -/

/-- Result of `ContainerWait` as surfaced by `WaitForContainer`:
either the error channel fires (no status), or a status code arrives. -/
inductive WaitOutcome where
  | waitErr : WaitOutcome
  | exited (statusCode : Int) : WaitOutcome
  deriving Repr, DecidableEq

/-- `WaitForContainer` (src/unnamed/part_001, lines 103-111): on the error
channel it returns `(0, err)`; on the status channel `(status, nil)`.
The pair is (returned status code, whether an error was returned). -/
def WaitForContainer : WaitOutcome → Int × Bool
  | .waitErr => (0, true)
  | .exited c => (c, false)

/-- The Docker-level fate of one job, as the scheduler observes it:
the image pull fails, the container create/start fails, or the container
starts and its wait has outcome `w`. -/
inductive DockerResult where
  | pullFail : DockerResult
  | startFail : DockerResult
  | started (w : WaitOutcome) : DockerResult
  deriving Repr, DecidableEq

/-- An environment assigning to each job name its Docker-level fate.
Stands for the behaviour of the Docker daemon during one run. -/
def DockerEnv := String → DockerResult

/-- `true` exactly when the job failed before its container ran
(pull failure or create/start failure). -/
def DockerResult.isSoftFail : DockerResult → Bool
  | .pullFail => true
  | .startFail => true
  | .started _ => false

/-! ## The scheduler: executePipeline (src/unnamed/part_002, lines 118-198) -/

/-- The terminal database record of one executed job: the status string and
the exit code written by `UpdateJobStatus`. -/
structure JobRecord where
  name : String
  status : String
  exitCode : Option Int
  deriving Repr, DecidableEq

/-- The body of the inner job loop of `executePipeline` for one job:
returns the job's terminal record, whether `pipelineSuccess` was cleared,
and whether the scheduler returns `false` immediately (`halt`).

* pull failure: status `failed`, exit code 1, clear success, `continue`;
* start failure: same;
* container ran: status code is what `WaitForContainer` returned (0 when
  the wait errored); the record is `success`/exit 0 when the code is 0,
  else `failed` with that code, and a non-zero code halts the scheduler. -/
def execJob (docker : DockerEnv) (name : String) : JobRecord × Bool × Bool :=
  match docker name with
  | .pullFail => (⟨name, "failed", some 1⟩, true, false)
  | .startFail => (⟨name, "failed", some 1⟩, true, false)
  | .started w =>
    let statusCode := (WaitForContainer w).1
    if statusCode ≠ 0 then
      (⟨name, "failed", some statusCode⟩, true, true)
    else
      (⟨name, "success", some statusCode⟩, false, false)

/-- The inner loop of `executePipeline` over one stage: runs every job of
the association list whose `stage` matches, in list order. Returns the
emitted job records, whether any job failed (clearing `pipelineSuccess`),
and whether the scheduler halted (`return false`). -/
def runStageJobs (docker : DockerEnv) (stageName : String) :
    List (String × Job) → List JobRecord × Bool × Bool
  | [] => ([], false, false)
  | (name, job) :: rest =>
    if job.stage ≠ stageName then
      runStageJobs docker stageName rest
    else
      let r := execJob docker name
      if r.2.2 then
        ([r.1], r.2.1, true)
      else
        let rs := runStageJobs docker stageName rest
        (r.1 :: rs.1, r.2.1 || rs.2.1, rs.2.2)

/-- The outer loop of `executePipeline` over the declared stage list.
Returns all emitted job records and the boolean result of `Execute`. -/
def runStages (docker : DockerEnv) (jobs : List (String × Job)) :
    List String → List JobRecord × Bool
  | [] => ([], true)
  | stageName :: rest =>
    let r := runStageJobs docker stageName jobs
    if r.2.2 then
      (r.1, false)
    else
      let r2 := runStages docker jobs rest
      (r.1 ++ r2.1, !r.2.1 && r2.2)

/-- `executePipeline` (src/unnamed/part_002): walks the stages in declared
order, runs matching jobs, and returns `true` iff the whole pipeline
succeeded, together with the trace of terminal job records. -/
def executePipeline (docker : DockerEnv) (config : PipelineConfig) :
    List JobRecord × Bool :=
  runStages docker config.jobs config.stages

/-! ## The orchestrator: runPipelineLogic (src/internal/api/runner.go) -/

/-- `models.PipelineRunParams`: the fully-resolved context of one run. -/
structure PipelineRunParams where
  repoURL : String
  repoName : String
  branch : String
  commitHash : String
  accessToken : String
  pipelineFilename : String
  deploymentFilename : String
  projectID : Int
  pipelineID : Int
  deriving Repr, DecidableEq

/-- Go string slicing `s[:n]`: defined only when `n ≤ len(s)`, otherwise Go
panics with a slice-bounds-out-of-range runtime error (`none` here).
Commit hashes are ASCII, so Go's byte indexing and character indexing agree. -/
def goSliceFirst (s : String) (n : Nat) : Option String :=
  if n ≤ s.length then some ⟨s.data.take n⟩ else none

/-- One observable side effect of `runPipelineLogic`: a persistence write or
an executor invocation. Pure reads (`GetProject`,
`GetLastSuccessfulPipeline`) and log lines to the console are not traced. -/
inductive Event where
  | updatePipelineStatus (status : String)
  | createJob (name : String)
  | createDeployment
  | updateDeploymentStatus (status : String)
  | createDeploymentLog (text : String)
  | schedulerExec
  | deployExec (commitHash : String)
  deriving Repr, DecidableEq

/-- The environment of one orchestrator run: outcomes of every fallible
external call. `schedulerOk` is the boolean the injected
`pipelineExecutor.Execute` returns (the in-repo implementation of that
collaborator is `executePipeline`); `lastSuccessful` is the commit hash of
the most recent successful pipeline of the project, if any. -/
structure RunEnv where
  cloneOk : Bool
  configFound : Bool
  parseOk : Bool
  config : PipelineConfig
  createJobOk : String → Bool
  createDeploymentOk : Bool
  schedulerOk : Bool
  deployErr : Bool
  lastSuccessful : Option String
  rollbackCloneOk : Bool
  rollbackDeployErr : Bool

/-- The inner pre-create loop of runner.go (lines 55-64) over one stage:
`CreateJob` for every job of the stage; a failed `CreateJob` is logged and
the whole run returns (`false` = aborted). -/
def preCreateStageJobs (ok : String → Bool) (stageName : String) :
    List (String × Job) → List Event × Bool
  | [] => ([], true)
  | (name, job) :: rest =>
    if job.stage ≠ stageName then
      preCreateStageJobs ok stageName rest
    else if ok name then
      let r := preCreateStageJobs ok stageName rest
      (Event.createJob name :: r.1, r.2)
    else
      ([Event.createJob name], false)

/-- The outer pre-create loop of runner.go (lines 55-64) over the stages. -/
def preCreateJobs (ok : String → Bool) (jobs : List (String × Job)) :
    List String → List Event × Bool
  | [] => ([], true)
  | stageName :: rest =>
    let r := preCreateStageJobs ok stageName jobs
    if r.2 then
      let r2 := preCreateJobs ok jobs rest
      (r.1 ++ r2.1, r2.2)
    else
      (r.1, false)

/-- `runPipelineLogic` (src/internal/api/runner.go, lines 17-148), the
rollback-capable orchestrator, as the trace of its persistence writes and
executor invocations. `none` models a Go panic: the unguarded slices
`params.CommitHash[:8]` (line 20) and `rollbackParams.CommitHash[:8]`
(line 103) panic on hashes shorter than 8. -/
def runPipelineLogic (env : RunEnv) (params : PipelineRunParams) :
    Option (List Event) :=
  match goSliceFirst params.commitHash 8 with
  | none => none
  | some _ =>
    if !env.cloneOk then some [.updatePipelineStatus "failed"]
    else if !env.configFound then some [.updatePipelineStatus "failed"]
    else if !env.parseOk then some [.updatePipelineStatus "failed"]
    else
      let pre := preCreateJobs env.createJobOk env.config.jobs env.config.stages
      if !pre.2 then some pre.1
      else
        let evs1 := pre.1 ++ [Event.createDeployment]
        if !env.createDeploymentOk then some evs1
        else
          let evs2 := evs1 ++ [Event.schedulerExec]
          if env.schedulerOk then
            let evs3 := evs2 ++ [Event.updateDeploymentStatus "deploying",
                                 Event.deployExec params.commitHash]
            if env.deployErr then
              match env.lastSuccessful with
              | none =>
                some (evs3 ++ [Event.updateDeploymentStatus "failed",
                               Event.updatePipelineStatus "failed",
                               Event.updateDeploymentStatus "failed"])
              | some c0 =>
                match goSliceFirst c0 8 with
                | none => none
                | some _ =>
                  if env.rollbackCloneOk then
                    let evs4 := evs3 ++
                      [Event.createDeploymentLog "=== ROLLBACK STARTED ===",
                       Event.deployExec c0]
                    if !env.rollbackDeployErr then
                      some (evs4 ++ [Event.updateDeploymentStatus "rolled_back",
                                     Event.updatePipelineStatus "failed",
                                     Event.updateDeploymentStatus "failed"])
                    else
                      some (evs4 ++ [Event.updateDeploymentStatus "failed",
                                     Event.updatePipelineStatus "failed",
                                     Event.updateDeploymentStatus "failed"])
                  else
                    some (evs3 ++ [Event.updateDeploymentStatus "failed",
                                   Event.updatePipelineStatus "failed",
                                   Event.updateDeploymentStatus "failed"])
            else
              some (evs3 ++ [Event.updateDeploymentStatus "success",
                             Event.updatePipelineStatus "success"])
          else
            some (evs2 ++ [Event.updatePipelineStatus "failed",
                           Event.updateDeploymentStatus "failed"])

/-- The status argument of an `updateDeploymentStatus` event, if any. -/
def Event.deploymentStatus? : Event → Option String
  | .updateDeploymentStatus s => some s
  | _ => none

/-- The status argument of an `updatePipelineStatus` event, if any. -/
def Event.pipelineStatus? : Event → Option String
  | .updatePipelineStatus s => some s
  | _ => none

/-- The deployment status persisted at the end of a trace: the last
`UpdateDeploymentStatus` write, `none` if that record was never written to. -/
def finalDeploymentStatus (t : List Event) : Option String :=
  (t.filterMap Event.deploymentStatus?).getLast?

/-- The pipeline status persisted at the end of a trace. -/
def finalPipelineStatus (t : List Event) : Option String :=
  (t.filterMap Event.pipelineStatus?).getLast?

/-- `true` for an invocation of the deployment executor. -/
def Event.isDeployExec : Event → Bool
  | .deployExec _ => true
  | _ => false

/-- `true` for a deployment-log write (the rollback-start marker). -/
def Event.isDeploymentLog : Event → Bool
  | .createDeploymentLog _ => true
  | _ => false

/-- How often the deployment executor was invoked during a trace. -/
def countDeployExec (t : List Event) : Nat :=
  t.countP Event.isDeployExec

/-! ## SanitizeProjectName (pkg/utils, src/internal/api/runner.go lines 157-162) -/

/-- `strings.ToLower` restricted to the ASCII case mapping: the characters
whose lowering can land in `[a-z0-9]` are exactly `A`-`Z`, so for the
sanitizer's output this agrees with Go's Unicode mapping. -/
def goToLower (c : Char) : Char :=
  if 65 ≤ c.toNat ∧ c.toNat ≤ 90 then Char.ofNat (c.toNat + 32) else c

/-- Membership in the regexp character class `[a-z0-9]`. -/
def isLowerAlnum (c : Char) : Bool :=
  (97 ≤ c.toNat && c.toNat ≤ 122) || (48 ≤ c.toNat && c.toNat ≤ 57)

/-- `regexp.MustCompile("[^a-z0-9]+").ReplaceAllString(name, "-")`, as a
left-to-right scan: every maximal run of characters outside `[a-z0-9]`
becomes a single `-`. The flag records whether the scan stands inside such
a run (the `-` for it has already been emitted). -/
def collapseRunsAux : Bool → List Char → List Char
  | _, [] => []
  | inRun, c :: rest =>
    if isLowerAlnum c then c :: collapseRunsAux false rest
    else if inRun then collapseRunsAux true rest
    else '-' :: collapseRunsAux true rest

/-- The regexp replacement, starting outside any run. -/
def collapseRuns (l : List Char) : List Char :=
  collapseRunsAux false l

/-- Removal of the maximal trailing run of `-` (the right half of
`strings.Trim(name, "-")`). -/
def trimRight : List Char → List Char
  | [] => []
  | c :: rest =>
    match trimRight rest with
    | [] => if c = '-' then [] else [c]
    | d :: ds => c :: d :: ds

/-- `strings.Trim(name, "-")`: leading and trailing `-` removed. -/
def trimDashes (l : List Char) : List Char :=
  trimRight (l.dropWhile (fun c => c == '-'))

/-- Does the character list start with `-`? -/
def headIsDash : List Char → Bool
  | [] => false
  | c :: _ => c == '-'

/-- Does the character list end with `-`? -/
def lastIsDash : List Char → Bool
  | [] => false
  | [c] => c == '-'
  | _ :: rest => lastIsDash rest

/-- No two adjacent characters are both `-` (separators are single). -/
def noDoubleDash : List Char → Bool
  | [] => true
  | [_] => true
  | a :: b :: rest => !(a == '-' && b == '-') && noDoubleDash (b :: rest)

/-- `utils.SanitizeProjectName`: lowercase, collapse non-`[a-z0-9]` runs to
a single `-`, trim leading/trailing `-`. -/
def SanitizeProjectName (s : String) : String :=
  ⟨trimDashes (collapseRuns (s.data.map goToLower))⟩

/-! ## The log batcher: collectLogs (src/unnamed/part_002, lines 201-255) -/

/-- `strings.ReplaceAll(line, "\x00", "")`: strip embedded null bytes. -/
def cleanLine (line : String) : String :=
  ⟨line.data.filter (fun c => c ≠ Char.ofNat 0)⟩

/-- The scanner loop of `collectLogs` with its accumulated batch: sanitize
each line, drop lines empty after sanitization, append to the batch, flush
the batch to `CreateLogBatch` once it reaches 10 lines, and flush the
remaining partial batch at stream end. The database is present
(`s.db != nil && jobID > 0`), so every flush persists. The result is the
list of persisted batches in flush order. -/
def collectLogsLoop : List String → List String → List (List String)
  | [], batch => if batch.isEmpty then [] else [batch]
  | line :: rest, batch =>
    let cl := cleanLine line
    if cl = "" then collectLogsLoop rest batch
    else
      let batch2 := batch ++ [cl]
      if 10 ≤ batch2.length then batch2 :: collectLogsLoop rest []
      else collectLogsLoop rest batch2

/-- `collectLogs` on the ordered sequence of lines decoded from the
container's multiplexed output stream: the persisted batches in flush
order. -/
def collectLogs (lines : List String) : List (List String) :=
  collectLogsLoop lines []

/-! ## Command chaining (src/unnamed/part_001, RunJobWithVolume) -/

/-- `strings.Join(commands, " && ")` (src/unnamed/part_001, line 64): the
single shell command the container runs via `sh -c`. -/
def joinAndCommands (commands : List String) : String :=
  String.intercalate " && " commands

/-- Modelled from the spec: the exit status of `sh -c` running the
commands joined with `" && "`. `sh` is an external tool, not repository
code; per the spec, each command must succeed for the next to run, and a
failing command makes the whole chain exit with its non-zero code. A
command is abstracted by its exit code. -/
def shellAndExit : List Int → Int
  | [] => 0
  | c :: rest => if c = 0 then shellAndExit rest else c

/-- Modelled from the spec: the commands (as exit codes, in order) that the
`&&` chain actually executes — every command up to and including the first
failing one; nothing after a failure runs. -/
def shellAndExecuted : List Int → List Int
  | [] => []
  | c :: rest => if c = 0 then c :: shellAndExecuted rest else [c]

/-! ## Derived scheduler predicates -/

/-- Does some record of the trace have status `failed`? -/
def anyFailed (recs : List JobRecord) : Bool :=
  recs.any (fun r => r.status == "failed")

/-- Every `failed` record of the trace stems from a soft Docker failure
(image pull or container start), as opposed to a non-zero container exit. -/
def allFailsSoft (docker : DockerEnv) (recs : List JobRecord) : Bool :=
  recs.all (fun r => r.status != "failed" || (docker r.name).isSoftFail)

/-- Every `failed` record, except possibly the final record of the trace,
stems from a soft Docker failure: a hard failure (non-zero container exit)
can only be the last job the scheduler ran. -/
def failsSoftExceptLast (docker : DockerEnv) : List JobRecord → Bool
  | [] => true
  | [_] => true
  | r :: r2 :: rest =>
    (r.status != "failed" || (docker r.name).isSoftFail)
      && failsSoftExceptLast docker (r2 :: rest)

/-- Shape of the flushed batches: every batch is non-empty with at most 10
lines, and every batch before the final one has exactly 10 lines. -/
def batchesOk : List (List String) → Bool
  | [] => true
  | [b] => decide (1 ≤ b.length) && decide (b.length ≤ 10)
  | b :: rest => (b.length == 10) && batchesOk rest

/-! ## Concrete scenarios used by the theorems -/

/-- A two-stage config: job `a` in stage `s1`, job `b` in stage `s2`. -/
def cfgTwo : PipelineConfig :=
  ⟨["s1", "s2"], [("a", ⟨"s1", "img", ["true"]⟩), ("b", ⟨"s2", "img", ["true"]⟩)]⟩

/-- Docker behaviour where the image pull of job `a` fails and every other
container runs and exits 0. -/
def dockerPullFailA : DockerEnv :=
  fun n => if n = "a" then .pullFail else .started (.exited 0)

/-- Docker behaviour where every container starts but its wait errors. -/
def dockerWaitErr : DockerEnv :=
  fun _ => .started .waitErr

/-- Scenario A config (spec section 8): stages `[build, test]`, job `b` in
build with command `true`, job `t` in test with command `false`. -/
def cfgScenarioA : PipelineConfig :=
  ⟨["build", "test"],
   [("b", ⟨"build", "x", ["true"]⟩), ("t", ⟨"test", "x", ["false"]⟩)]⟩

/-- Docker behaviour of scenario A: job `b`'s container exits 0, job `t`'s
container exits 1 (the exit codes of `true` and `false`). -/
def dockerScenarioA : DockerEnv :=
  fun n => if n = "t" then .started (.exited 1) else .started (.exited 0)

/-- Run parameters with an 8+ character commit hash. -/
def paramsStd : PipelineRunParams :=
  ⟨"https://example.com/r.git", "My Repo", "main", "deadbeef1234", "tok",
   ".gitlab-ci.yml", "docker-compose.yml", 1, 7⟩

/-- Scenario C environment: all external calls succeed, all jobs succeed,
the first deployment attempt fails, a prior successful pipeline exists at
commit `c0c0c0c0c0`, and the rollback clone and rollback deployment both
succeed. -/
def envScenarioC : RunEnv :=
  ⟨true, true, true, cfgScenarioA, fun _ => true, true, true, true,
   some "c0c0c0c0c0", true, false⟩

/-- Scenario A environment: like scenario C but the job phase fails (the
scheduler result is the one `executePipeline` computes for scenario A). -/
def envScenarioA : RunEnv :=
  { envScenarioC with
      schedulerOk := (executePipeline dockerScenarioA cfgScenarioA).2,
      deployErr := false }

/-- Environment where the persistence write pre-creating job `b` fails and
everything else succeeds. -/
def envCreateJobFail : RunEnv :=
  { envScenarioC with createJobOk := fun n => !(n == "b") }

/-- Scenario D environment: all jobs succeed, the deployment fails, and no
prior successful pipeline exists for the project. -/
def envScenarioD : RunEnv :=
  { envScenarioC with lastSuccessful := none }

/-! # Theorems

First the shared lemmas about the scheduler, then one theorem (with its
witness or counterexample) per specification claim. -/

/-- The record `execJob` emits carries the name of the job it ran. -/
theorem execJob_name (docker : DockerEnv) (name : String) :
    (execJob docker name).1.name = name := by
  unfold execJob
  cases docker name with
  | pullFail => rfl
  | startFail => rfl
  | started w =>
    by_cases hc : (WaitForContainer w).1 = 0 <;> simp [hc]

/-- The job record is `failed` exactly when `execJob` clears
`pipelineSuccess`. -/
theorem execJob_fail_flag (docker : DockerEnv) (name : String) :
    ((execJob docker name).1.status == "failed") = (execJob docker name).2.1 := by
  unfold execJob
  cases docker name with
  | pullFail => rfl
  | startFail => rfl
  | started w =>
    by_cases hc : (WaitForContainer w).1 = 0 <;> simp [hc]

/-- A failed job that did not halt the scheduler failed softly (image pull
or container start), not by a non-zero container exit. -/
theorem execJob_soft (docker : DockerEnv) (name : String)
    (hh : (execJob docker name).2.2 = false)
    (hf : (execJob docker name).2.1 = true) :
    (docker name).isSoftFail = true := by
  cases hd : docker name with
  | pullFail => rfl
  | startFail => rfl
  | started w =>
    unfold execJob at hh hf
    rw [hd] at hh hf
    by_cases hc : (WaitForContainer w).1 = 0
    · simp [hc] at hf
    · simp [hc] at hh

/-- A halting `execJob` cleared `pipelineSuccess`. -/
theorem execJob_halt_flag (docker : DockerEnv) (name : String)
    (hh : (execJob docker name).2.2 = true) :
    (execJob docker name).2.1 = true := by
  cases hd : docker name with
  | pullFail => unfold execJob; rw [hd]
  | startFail => unfold execJob; rw [hd]
  | started w =>
    unfold execJob at hh ⊢
    rw [hd] at hh ⊢
    by_cases hc : (WaitForContainer w).1 = 0
    · simp [hc] at hh
    · simp [hc]

/-- In one stage, the cleared `pipelineSuccess` flag equals the presence of
a failed record. -/
theorem runStageJobs_fail_flag (docker : DockerEnv) (stageName : String) :
    ∀ jobs, (runStageJobs docker stageName jobs).2.1
      = anyFailed (runStageJobs docker stageName jobs).1
  | [] => by simp [runStageJobs, anyFailed]
  | (name, job) :: rest => by
    have ih := runStageJobs_fail_flag docker stageName rest
    by_cases hs : job.stage ≠ stageName
    · simp only [runStageJobs, if_pos hs]
      exact ih
    · by_cases hhalt : (execJob docker name).2.2 = true
      · simp only [runStageJobs, if_neg hs, if_pos hhalt, anyFailed,
          List.any_cons, List.any_nil]
        rw [execJob_fail_flag]
        simp
      · simp only [runStageJobs, if_neg hs, if_neg hhalt, anyFailed,
          List.any_cons]
        rw [execJob_fail_flag]
        simp only [anyFailed] at ih
        rw [ih]

/-- A stage loop that did not halt only contains soft failures. -/
theorem runStageJobs_no_halt_soft (docker : DockerEnv) (stageName : String) :
    ∀ jobs, (runStageJobs docker stageName jobs).2.2 = false →
      allFailsSoft docker (runStageJobs docker stageName jobs).1 = true
  | [] => by simp [runStageJobs, allFailsSoft]
  | (name, job) :: rest => by
    intro hh
    have ih := runStageJobs_no_halt_soft docker stageName rest
    by_cases hs : job.stage ≠ stageName
    · simp only [runStageJobs, if_pos hs] at hh ⊢
      exact ih hh
    · by_cases hhalt : (execJob docker name).2.2 = true
      · simp only [runStageJobs, if_neg hs, if_pos hhalt] at hh
        simp at hh
      · simp only [runStageJobs, if_neg hs, if_neg hhalt] at hh ⊢
        simp only [allFailsSoft, List.all_cons, Bool.and_eq_true]
        refine ⟨?_, ih hh⟩
        rw [Bool.not_eq_true] at hhalt
        by_cases hf : (execJob docker name).2.1 = true
        · have hsoft := execJob_soft docker name hhalt hf
          rw [execJob_name, hsoft]
          simp
        · simp only [Bool.not_eq_true] at hf
          have hflag := execJob_fail_flag docker name
          rw [hf] at hflag
          simp only [Bool.not_eq_true, Bool.or_eq_true, bne_eq_false_iff_eq,
            beq_eq_false_iff_ne, ne_eq]
          left
          simp [bne, hflag]

/-- A halted stage loop contains a failed record. -/
theorem runStageJobs_halt_failed (docker : DockerEnv) (stageName : String) :
    ∀ jobs, (runStageJobs docker stageName jobs).2.2 = true →
      anyFailed (runStageJobs docker stageName jobs).1 = true
  | [] => by simp [runStageJobs]
  | (name, job) :: rest => by
    intro hh
    have ih := runStageJobs_halt_failed docker stageName rest
    by_cases hs : job.stage ≠ stageName
    · simp only [runStageJobs, if_pos hs] at hh ⊢
      exact ih hh
    · by_cases hhalt : (execJob docker name).2.2 = true
      · simp only [runStageJobs, if_neg hs, if_pos hhalt, anyFailed,
          List.any_cons, List.any_nil, Bool.or_eq_true]
        left
        rw [execJob_fail_flag]
        exact execJob_halt_flag docker name hhalt
      · simp only [runStageJobs, if_neg hs, if_neg hhalt] at hh ⊢
        simp only [anyFailed, List.any_cons, Bool.or_eq_true]
        right
        simp only [anyFailed] at ih
        exact ih hh

/-- Prepending a record that is successful or failed softly preserves
`failsSoftExceptLast`. -/
theorem failsSoftExceptLast_cons (docker : DockerEnv) (r : JobRecord)
    (l : List JobRecord)
    (hr : (r.status != "failed" || (docker r.name).isSoftFail) = true)
    (hl : failsSoftExceptLast docker l = true) :
    failsSoftExceptLast docker (r :: l) = true := by
  cases l with
  | nil => rfl
  | cons b bs => simp [failsSoftExceptLast, hr, hl]

/-- A trace whose failures are all soft satisfies `failsSoftExceptLast`. -/
theorem allFailsSoft_exceptLast (docker : DockerEnv) :
    ∀ l, allFailsSoft docker l = true → failsSoftExceptLast docker l = true
  | [] => fun _ => rfl
  | r :: rest => by
    intro h
    simp only [allFailsSoft, List.all_cons, Bool.and_eq_true] at h
    exact failsSoftExceptLast_cons docker r rest h.1
      (allFailsSoft_exceptLast docker rest h.2)

/-- Appending after soft-only records preserves `failsSoftExceptLast`. -/
theorem failsSoftExceptLast_append (docker : DockerEnv) :
    ∀ xs ys, allFailsSoft docker xs = true →
      failsSoftExceptLast docker ys = true →
      failsSoftExceptLast docker (xs ++ ys) = true
  | [], ys => by intro _ h; simpa using h
  | x :: xs, ys => by
    intro hx hy
    simp only [allFailsSoft, List.all_cons, Bool.and_eq_true] at hx
    exact failsSoftExceptLast_cons docker x (xs ++ ys) hx.1
      (failsSoftExceptLast_append docker xs ys hx.2 hy)

/-- Every stage loop trace keeps hard failures for the final record. -/
theorem runStageJobs_exceptLast (docker : DockerEnv) (stageName : String) :
    ∀ jobs, failsSoftExceptLast docker (runStageJobs docker stageName jobs).1 = true
  | [] => rfl
  | (name, job) :: rest => by
    have ih := runStageJobs_exceptLast docker stageName rest
    simp only [runStageJobs]
    split
    · exact ih
    · split <;> rename_i hhalt
      · rfl
      · rw [Bool.not_eq_true] at hhalt
        refine failsSoftExceptLast_cons docker _ _ ?_ ih
        by_cases hf : (execJob docker name).2.1 = true
        · have := execJob_soft docker name hhalt hf
          simp [execJob_name, this]
        · simp only [Bool.not_eq_true] at hf
          have hflag := execJob_fail_flag docker name
          rw [hf] at hflag
          simp only [Bool.not_eq_true, Bool.or_eq_true, bne_eq_false_iff_eq,
            beq_eq_false_iff_ne, ne_eq]
          left
          simp [bne, hflag]

/-- `Execute`'s boolean equals "no record failed" across all stages. -/
theorem runStages_ok_iff (docker : DockerEnv) (jobs : List (String × Job)) :
    ∀ stages, (runStages docker jobs stages).2
      = !anyFailed (runStages docker jobs stages).1
  | [] => by simp [runStages, anyFailed]
  | stageName :: rest => by
    have ih := runStages_ok_iff docker jobs rest
    simp only [runStages]
    split <;> rename_i hhalt
    · rw [runStageJobs_halt_failed docker stageName jobs hhalt]
      rfl
    · simp only [anyFailed, List.any_append]
      rw [Bool.not_eq_true] at hhalt
      have h1 := runStageJobs_fail_flag docker stageName jobs
      simp only [anyFailed] at h1 ih
      rw [← h1, ih]
      simp [Bool.not_or]

/-- Across all stages, only the final record may be a hard failure. -/
theorem runStages_exceptLast (docker : DockerEnv) (jobs : List (String × Job)) :
    ∀ stages, failsSoftExceptLast docker (runStages docker jobs stages).1 = true
  | [] => rfl
  | stageName :: rest => by
    have ih := runStages_exceptLast docker jobs rest
    simp only [runStages]
    split <;> rename_i hhalt
    · exact runStageJobs_exceptLast docker stageName jobs
    · rw [Bool.not_eq_true] at hhalt
      exact failsSoftExceptLast_append docker _ _
        (runStageJobs_no_halt_soft docker stageName jobs hhalt) ih

/-- C1 (counterexample): it is not true that no job is ever started after a
failed job. With job `a`'s image pull failing in stage `s1`, the scheduler
continues and runs job `b` of stage `s2` (`b`'s success record follows
`a`'s failed record in the trace). -/
theorem scheduler_continues_after_pull_failure :
    ¬ ∀ (docker : DockerEnv) (config : PipelineConfig)
        (pre post : List JobRecord) (r : JobRecord),
        (executePipeline docker config).1 = pre ++ r :: post →
        r.status = "failed" → post = [] := by
  intro h
  have hb := h dockerPullFailA cfgTwo [] [⟨"b", "success", some 0⟩]
    ⟨"a", "failed", some 1⟩ (by decide) rfl
  exact List.cons_ne_nil _ _ hb

/-- C1 (amended): `Execute` returns `false` exactly when some job record is
`failed`; a hard failure (non-zero container exit) halts the scheduler
immediately, so every failed record other than the final one stems from an
image-pull or container-start failure — after which the scheduler
continues with the remaining jobs and stages. -/
theorem scheduler_fail_fast_amended (docker : DockerEnv) (config : PipelineConfig) :
    (executePipeline docker config).2 = !anyFailed (executePipeline docker config).1 ∧
    failsSoftExceptLast docker (executePipeline docker config).1 = true :=
  ⟨runStages_ok_iff docker config.jobs config.stages,
   runStages_exceptLast docker config.jobs config.stages⟩

/-- C8 (counterexample): a container-wait error does not make the job
fatal: with every wait erroring, the job is recorded `success`, not
`failed`. -/
theorem wait_error_recorded_success :
    ¬ ∀ (docker : DockerEnv) (name : String),
        docker name = .started .waitErr →
        (execJob docker name).1.status = "failed" := by
  intro h
  exact absurd (h dockerWaitErr "j" rfl) (by decide)

/-- C8 (amended): when the container ran, the job's recorded outcome is
driven by the status code `WaitForContainer` returns: exit code recorded
as-is, `success` iff it is 0. A wait error yields status code 0, so the
job is recorded `success` with exit code 0 — never `failed`. -/
theorem wait_outcome_drives_status (docker : DockerEnv) (name : String)
    (w : WaitOutcome) (h : docker name = .started w) :
    (execJob docker name).1.exitCode = some (WaitForContainer w).1 ∧
    (execJob docker name).1.status =
      (if (WaitForContainer w).1 = 0 then "success" else "failed") ∧
    (w = .waitErr → (WaitForContainer w).1 = 0 ∧
      (execJob docker name).1.status = "success") := by
  unfold execJob
  rw [h]
  cases w with
  | waitErr => simp [WaitForContainer]
  | exited c =>
    by_cases hc : c = 0 <;> simp [WaitForContainer, hc]

/-- Witness for C8 (amended) at the concrete wait-error environment. -/
theorem wait_outcome_drives_status_witness :
    (execJob dockerWaitErr "j").1.status = "success" ∧
    (execJob dockerWaitErr "j").1.exitCode = some 0 :=
  ⟨((wait_outcome_drives_status dockerWaitErr "j" .waitErr rfl).2.2 rfl).2,
   (wait_outcome_drives_status dockerWaitErr "j" .waitErr rfl).1⟩

/-- An `&&` chain with some failing command exits non-zero. -/
theorem shellAndExit_ne_zero :
    ∀ codes : List Int, (∃ c ∈ codes, c ≠ 0) → shellAndExit codes ≠ 0
  | [], h => by simp at h
  | c :: rest, h => by
    by_cases hc : c = 0
    · simp only [shellAndExit, if_pos hc]
      rcases h with ⟨d, hd, hd0⟩
      rcases hd with _ | hd
      · exact absurd hc hd0
      · exact shellAndExit_ne_zero rest ⟨d, by assumption, hd0⟩
    · simp [shellAndExit, hc]

/-- Decomposing an `&&` chain at its first failing command: exactly the
commands up to and including it run, and its code is the chain's exit. -/
theorem shellAnd_first_failure :
    ∀ (pre : List Int) (c : Int) (post : List Int),
      (∀ p ∈ pre, p = 0) → c ≠ 0 →
      shellAndExecuted (pre ++ c :: post) = pre ++ [c] ∧
      shellAndExit (pre ++ c :: post) = c
  | [], c, post => by
    intro _ hc
    simp [shellAndExecuted, shellAndExit, hc]
  | p :: pre, c, post => by
    intro hpre hc
    have hp : p = 0 := hpre p (by simp)
    have ih := shellAnd_first_failure pre c post
      (fun q hq => hpre q (by simp [hq])) hc
    simp [shellAndExecuted, shellAndExit, hp, ih.1, ih.2]

/-- C6: the commands of a job run inside one container with logical-AND
semantics: the commands before the first failing one run, the failing one
runs, nothing after it runs, and the container exits with its non-zero
code; consequently the job whose container exits with the chain's code is
recorded `failed` with a non-zero exit code. -/
theorem commands_all_or_nothing (codes : List Int) (docker : DockerEnv)
    (name : String)
    (hdocker : docker name = .started (.exited (shellAndExit codes)))
    (hfail : ∃ c ∈ codes, c ≠ 0) :
    shellAndExit codes ≠ 0 ∧
    (execJob docker name).1.status = "failed" ∧
    (execJob docker name).1.exitCode = some (shellAndExit codes) ∧
    (∀ pre c post, codes = pre ++ c :: post → (∀ p ∈ pre, p = 0) → c ≠ 0 →
      shellAndExecuted codes = pre ++ [c] ∧ shellAndExit codes = c) := by
  have hne := shellAndExit_ne_zero codes hfail
  have hrec := wait_outcome_drives_status docker name
    (.exited (shellAndExit codes)) hdocker
  refine ⟨hne, ?_, ?_, ?_⟩
  · rw [hrec.2.1]
    simp [WaitForContainer, hne]
  · rw [hrec.1]
    rfl
  · intro pre c post hdec hpre hc
    rw [hdec]
    exact shellAnd_first_failure pre c post hpre hc

/-- Witness for C6 on the command chain with exit codes `[0, 2, 5]`. -/
theorem commands_all_or_nothing_witness :
    shellAndExit [0, 2, 5] ≠ 0 ∧
    (execJob (fun _ => .started (.exited (shellAndExit [0, 2, 5]))) "j").1.status
      = "failed" ∧
    shellAndExecuted [0, 2, 5] = [0, 2] := by
  have h := commands_all_or_nothing [0, 2, 5]
    (fun _ => .started (.exited (shellAndExit [0, 2, 5]))) "j" rfl
    ⟨2, by decide, by decide⟩
  exact ⟨h.1, h.2.1, (h.2.2.2 [0] 2 [5] rfl (by decide) (by decide)).1⟩

/-- The concatenation invariant of the batching loop: flushed batches plus
the pending batch hold exactly the sanitized non-empty lines in order. -/
theorem collectLogsLoop_flatten :
    ∀ (lines : List String) (batch : List String),
      (collectLogsLoop lines batch).flatten
        = batch ++ (lines.map cleanLine).filter (fun l => l != "")
  | [], batch => by
    by_cases hb : batch.isEmpty
    · simp [collectLogsLoop, hb, List.isEmpty_iff.mp hb]
    · simp [collectLogsLoop, hb]
  | line :: rest, batch => by
    by_cases he : cleanLine line = ""
    · have ih := collectLogsLoop_flatten rest batch
      simp [collectLogsLoop, he, ih]
    · by_cases hf : 9 ≤ batch.length
      · have ih := collectLogsLoop_flatten rest []
        simp [collectLogsLoop, he, hf, ih]
      · have ih := collectLogsLoop_flatten rest (batch ++ [cleanLine line])
        simp [collectLogsLoop, he, hf, ih]

/-- Prepending a full batch preserves the batch-shape invariant. -/
theorem batchesOk_cons (b : List String) (rest : List (List String))
    (hb : b.length = 10) (hrest : batchesOk rest = true) :
    batchesOk (b :: rest) = true := by
  cases rest with
  | nil => simp [batchesOk, hb]
  | cons x xs => simp [batchesOk, hb, hrest]

/-- The batching loop flushes only well-shaped batches (pending batch
shorter than 10 on entry). -/
theorem collectLogsLoop_batchesOk :
    ∀ (lines : List String) (batch : List String), batch.length < 10 →
      batchesOk (collectLogsLoop lines batch) = true
  | [], batch => by
    intro hlt
    by_cases hb : batch.isEmpty
    · simp [collectLogsLoop, hb, batchesOk]
    · simp only [collectLogsLoop, if_neg hb]
      have : 1 ≤ batch.length := by
        cases batch with
        | nil => simp at hb
        | cons x xs => simp
      simp [batchesOk, this, Nat.le_of_lt hlt]
  | line :: rest, batch => by
    intro hlt
    by_cases he : cleanLine line = ""
    · simp only [collectLogsLoop, if_pos he]
      exact collectLogsLoop_batchesOk rest batch hlt
    · by_cases hf : 10 ≤ (batch ++ [cleanLine line]).length
      · simp only [collectLogsLoop, if_neg he, if_pos hf]
        have hlen : (batch ++ [cleanLine line]).length = 10 := by
          simp only [List.length_append, List.length_cons, List.length_nil]
          simp only [List.length_append, List.length_singleton] at hf
          omega
        exact batchesOk_cons _ _ hlen
          (collectLogsLoop_batchesOk rest [] (by simp))
      · simp only [collectLogsLoop, if_neg he, if_neg hf]
        refine collectLogsLoop_batchesOk rest (batch ++ [cleanLine line]) ?_
        simp only [List.length_append, List.length_singleton] at hf ⊢
        omega

/-- C5: the persisted log batches, concatenated in flush order, are exactly
the emitted lines in order with null bytes stripped and lines empty after
stripping omitted; every flushed batch holds between 1 and 10 lines, every
batch before the final one exactly 10 (flush at 10, final partial flush at
stream end). -/
theorem collectLogs_spec (lines : List String) :
    (collectLogs lines).flatten
      = (lines.map cleanLine).filter (fun l => l != "") ∧
    batchesOk (collectLogs lines) = true :=
  ⟨by simpa using collectLogsLoop_flatten lines [],
   collectLogsLoop_batchesOk lines [] (by simp)⟩

/-- Every event of the inner pre-create loop is a `createJob`. -/
theorem preCreateStageJobs_events (ok : String → Bool) (stageName : String) :
    ∀ jobs, ∀ e ∈ (preCreateStageJobs ok stageName jobs).1,
      ∃ n, e = Event.createJob n
  | [] => by simp [preCreateStageJobs]
  | (name, job) :: rest => by
    intro e he
    by_cases hs : job.stage ≠ stageName
    · exact preCreateStageJobs_events ok stageName rest e
        (by simpa [preCreateStageJobs, hs] using he)
    · by_cases ho : ok name = true
      · simp only [preCreateStageJobs, if_neg hs, if_pos ho,
          List.mem_cons] at he
        rcases he with rfl | he
        · exact ⟨name, rfl⟩
        · exact preCreateStageJobs_events ok stageName rest e he
      · simp only [preCreateStageJobs, if_neg hs, if_neg ho,
          List.mem_singleton] at he
        exact ⟨name, he⟩

/-- Every event of the pre-create phase is a `createJob`. -/
theorem preCreateJobs_events (ok : String → Bool) (jobs : List (String × Job)) :
    ∀ stages, ∀ e ∈ (preCreateJobs ok jobs stages).1, ∃ n, e = Event.createJob n
  | [] => by simp [preCreateJobs]
  | st :: rest => by
    intro e he
    by_cases hc : (preCreateStageJobs ok st jobs).2 = true
    · simp only [preCreateJobs, if_pos hc, List.mem_append] at he
      rcases he with he | he
      · exact preCreateStageJobs_events ok st jobs e he
      · exact preCreateJobs_events ok jobs rest e he
    · simp only [preCreateJobs, if_neg hc] at he
      exact preCreateStageJobs_events ok st jobs e he

/-- A failing inner pre-create loop exhibits a failing `CreateJob`. -/
theorem preCreateStageJobs_fail (ok : String → Bool) (stageName : String) :
    ∀ jobs, (preCreateStageJobs ok stageName jobs).2 = false →
      ∃ n, ok n = false
  | [] => by simp [preCreateStageJobs]
  | (name, job) :: rest => by
    intro h
    by_cases hs : job.stage ≠ stageName
    · exact preCreateStageJobs_fail ok stageName rest
        (by simpa [preCreateStageJobs, hs] using h)
    · by_cases ho : ok name = true
      · simp only [preCreateStageJobs, if_neg hs, if_pos ho] at h
        exact preCreateStageJobs_fail ok stageName rest h
      · exact ⟨name, by simpa using ho⟩

/-- A failing pre-create phase exhibits a failing `CreateJob`. -/
theorem preCreateJobs_fail (ok : String → Bool) (jobs : List (String × Job)) :
    ∀ stages, (preCreateJobs ok jobs stages).2 = false → ∃ n, ok n = false
  | [] => by simp [preCreateJobs]
  | st :: rest => by
    intro h
    by_cases hc : (preCreateStageJobs ok st jobs).2 = true
    · simp only [preCreateJobs, if_pos hc] at h
      exact preCreateJobs_fail ok jobs rest h
    · exact preCreateStageJobs_fail ok st jobs
        (by simpa using hc)

/-- `filterMap` vanishes on a list of `createJob` events when the function
ignores them. -/
theorem filterMap_createJob_nil (f : Event → Option String)
    (hf : ∀ n, f (Event.createJob n) = none) :
    ∀ l : List Event, (∀ e ∈ l, ∃ n, e = Event.createJob n) →
      l.filterMap f = []
  | [] => by simp
  | e :: rest => by
    intro hl
    obtain ⟨n, rfl⟩ := hl e (by simp)
    simp only [List.filterMap_cons, hf n]
    exact filterMap_createJob_nil f hf rest (fun x hx => hl x (by simp [hx]))

/-- `countP` vanishes on a list of `createJob` events when the predicate
rejects them. -/
theorem countP_createJob_zero (p : Event → Bool)
    (hp : ∀ n, p (Event.createJob n) = false) :
    ∀ l : List Event, (∀ e ∈ l, ∃ n, e = Event.createJob n) → l.countP p = 0
  | [] => by simp
  | e :: rest => by
    intro hl
    obtain ⟨n, rfl⟩ := hl e (by simp)
    have ih := countP_createJob_zero p hp rest (fun x hx => hl x (by simp [hx]))
    simp [List.countP_cons, hp n, ih]

/-- No `createJob` event is an `updateDeploymentStatus`. -/
theorem not_mem_createJob (s : String) :
    ∀ l : List Event, (∀ e ∈ l, ∃ n, e = Event.createJob n) →
      Event.updateDeploymentStatus s ∉ l := by
  intro l hl hmem
  obtain ⟨n, hn⟩ := hl _ hmem
  cases hn

/-- Case analysis on one orchestrator run: the commit hash is at least 8
characters long (else the run panics), and the emitted trace is the
pre-created `createJob` events followed by one of the seven possible
tails, each tagged with the environment facts that select it. -/
theorem runPipelineLogic_shape (env : RunEnv) (params : PipelineRunParams)
    (t : List Event) (h : runPipelineLogic env params = some t) :
    8 ≤ params.commitHash.length ∧
    ∃ pre, (∀ e ∈ pre, ∃ n, e = Event.createJob n) ∧
      (t = [Event.updatePipelineStatus "failed"] ∨
       (t = pre ∧ ∃ n, env.createJobOk n = false) ∨
       (t = pre ++ [Event.createDeployment]
          ∧ env.createDeploymentOk = false) ∨
       (t = pre ++ [Event.createDeployment, Event.schedulerExec,
                    Event.updatePipelineStatus "failed",
                    Event.updateDeploymentStatus "failed"]
          ∧ env.schedulerOk = false) ∨
       (t = pre ++ [Event.createDeployment, Event.schedulerExec,
                    Event.updateDeploymentStatus "deploying",
                    Event.deployExec params.commitHash,
                    Event.updateDeploymentStatus "success",
                    Event.updatePipelineStatus "success"]
          ∧ env.schedulerOk = true ∧ env.deployErr = false) ∨
       (t = pre ++ [Event.createDeployment, Event.schedulerExec,
                    Event.updateDeploymentStatus "deploying",
                    Event.deployExec params.commitHash,
                    Event.updateDeploymentStatus "failed",
                    Event.updatePipelineStatus "failed",
                    Event.updateDeploymentStatus "failed"]
          ∧ env.schedulerOk = true ∧ env.deployErr = true
          ∧ (env.lastSuccessful = none ∨ env.rollbackCloneOk = false)) ∨
       (∃ c0, env.lastSuccessful = some c0 ∧ 8 ≤ c0.length
          ∧ env.schedulerOk = true ∧ env.deployErr = true
          ∧ (t = pre ++ [Event.createDeployment, Event.schedulerExec,
                         Event.updateDeploymentStatus "deploying",
                         Event.deployExec params.commitHash,
                         Event.createDeploymentLog "=== ROLLBACK STARTED ===",
                         Event.deployExec c0,
                         Event.updateDeploymentStatus "rolled_back",
                         Event.updatePipelineStatus "failed",
                         Event.updateDeploymentStatus "failed"] ∨
             t = pre ++ [Event.createDeployment, Event.schedulerExec,
                         Event.updateDeploymentStatus "deploying",
                         Event.deployExec params.commitHash,
                         Event.createDeploymentLog "=== ROLLBACK STARTED ===",
                         Event.deployExec c0,
                         Event.updateDeploymentStatus "failed",
                         Event.updatePipelineStatus "failed",
                         Event.updateDeploymentStatus "failed"]))) := by
  unfold runPipelineLogic at h
  cases hcs : goSliceFirst params.commitHash 8 with
  | none => rw [hcs] at h; cases h
  | some s0 =>
    rw [hcs] at h
    have hlen : 8 ≤ params.commitHash.length := by
      by_contra hlt
      simp [goSliceFirst, hlt] at hcs
    refine ⟨hlen, (preCreateJobs env.createJobOk env.config.jobs
      env.config.stages).1, preCreateJobs_events _ _ _, ?_⟩
    cases hclone : env.cloneOk with
    | false =>
      simp only [hclone, Bool.not_false, if_true] at h
      exact Or.inl (Option.some.inj h).symm
    | true =>
    simp only [hclone, Bool.not_true, Bool.false_eq_true, if_false] at h
    cases hfound : env.configFound with
    | false =>
      simp only [hfound, Bool.not_false, if_true] at h
      exact Or.inl (Option.some.inj h).symm
    | true =>
    simp only [hfound, Bool.not_true, Bool.false_eq_true, if_false] at h
    cases hparse : env.parseOk with
    | false =>
      simp only [hparse, Bool.not_false, if_true] at h
      exact Or.inl (Option.some.inj h).symm
    | true =>
    simp only [hparse, Bool.not_true, Bool.false_eq_true, if_false] at h
    cases hpre : (preCreateJobs env.createJobOk env.config.jobs
        env.config.stages).2 with
    | false =>
      simp only [hpre, Bool.not_false, if_true] at h
      exact Or.inr (Or.inl ⟨(Option.some.inj h).symm,
        preCreateJobs_fail _ _ _ hpre⟩)
    | true =>
    simp only [hpre, Bool.not_true, Bool.false_eq_true, if_false] at h
    cases hdep : env.createDeploymentOk with
    | false =>
      simp only [hdep, Bool.not_false, if_true] at h
      exact Or.inr (Or.inr (Or.inl ⟨(Option.some.inj h).symm, rfl⟩))
    | true =>
    simp only [hdep, Bool.not_true, Bool.false_eq_true, if_false] at h
    cases hsched : env.schedulerOk with
    | false =>
      simp only [hsched, Bool.false_eq_true, if_false] at h
      refine Or.inr (Or.inr (Or.inr (Or.inl ⟨?_, rfl⟩)))
      rw [← Option.some.inj h]
      simp
    | true =>
    simp only [hsched, if_true] at h
    cases hderr : env.deployErr with
    | false =>
      simp only [hderr, Bool.false_eq_true, if_false] at h
      refine Or.inr (Or.inr (Or.inr (Or.inr (Or.inl ⟨?_, rfl, rfl⟩))))
      rw [← Option.some.inj h]
      simp
    | true =>
    simp only [hderr, if_true] at h
    cases hls : env.lastSuccessful with
    | none =>
      rw [hls] at h
      simp only [] at h
      refine Or.inr (Or.inr (Or.inr (Or.inr (Or.inr (Or.inl
        ⟨?_, rfl, rfl, Or.inl rfl⟩)))))
      rw [← Option.some.inj h]
      simp
    | some c0 =>
    rw [hls] at h
    simp only [] at h
    cases hc0 : goSliceFirst c0 8 with
    | none => rw [hc0] at h; cases h
    | some s1 =>
    rw [hc0] at h
    have hlen0 : 8 ≤ c0.length := by
      by_contra hlt
      simp [goSliceFirst, hlt] at hc0
    cases hrb : env.rollbackCloneOk with
    | false =>
      simp only [hrb, Bool.false_eq_true, if_false] at h
      refine Or.inr (Or.inr (Or.inr (Or.inr (Or.inr (Or.inl
        ⟨?_, rfl, rfl, Or.inr rfl⟩)))))
      rw [← Option.some.inj h]
      simp
    | true =>
    simp only [hrb, if_true] at h
    cases hrberr : env.rollbackDeployErr with
    | false =>
      simp only [hrberr, Bool.not_false, if_true] at h
      refine Or.inr (Or.inr (Or.inr (Or.inr (Or.inr (Or.inr
        ⟨c0, rfl, hlen0, rfl, rfl, Or.inl ?_⟩)))))
      rw [← Option.some.inj h]
      simp
    | true =>
      simp only [hrberr, Bool.not_true, Bool.false_eq_true, if_false] at h
      refine Or.inr (Or.inr (Or.inr (Or.inr (Or.inr (Or.inr
        ⟨c0, rfl, hlen0, rfl, rfl, Or.inr ?_⟩)))))
      rw [← Option.some.inj h]
      simp

/-- C2 (the code evaluated at the scenario): in scenario C the orchestrator
writes deploying → rolled_back → failed to the deployment record. The
successful rollback is recorded `rolled_back`, but the final failure
handler (runner.go line 146) then overwrites the record, so the final
persisted deployment status is `failed`, not `rolled_back`; the final
pipeline status is `failed` as the claim states. -/
theorem rollback_status_overwritten :
    (runPipelineLogic envScenarioC paramsStd).map
        (fun t => t.filterMap Event.deploymentStatus?)
      = some ["deploying", "rolled_back", "failed"] ∧
    (runPipelineLogic envScenarioC paramsStd).map finalDeploymentStatus
      = some (some "failed") ∧
    (runPipelineLogic envScenarioC paramsStd).map finalPipelineStatus
      = some (some "failed") := by
  decide

/-- C3 (counterexample): the deployment record does not remain `pending`
when a job fails: in scenario A (build succeeds, test exits 1) the final
failure handler writes `failed` to the pre-created deployment record, so
the run does end with a deployment-status write. -/
theorem deployment_written_after_job_failure :
    (runPipelineLogic envScenarioA paramsStd).map finalDeploymentStatus
      = some (some "failed") ∧
    (runPipelineLogic envScenarioA paramsStd).map finalDeploymentStatus
      ≠ some none := by
  decide

/-- C3 (amended): when the job phase fails, the deployment record is never
transitioned to `deploying`; at the end of the run its status is untouched
(early abort) or set to `failed` by the final failure handler — never
`deploying`, `success` or `rolled_back`. In scenario A the scheduler
records job `b` success with exit code 0 and job `t` failed with exit
code 1, and returns false. -/
theorem deployment_never_deploying_amended (env : RunEnv)
    (params : PipelineRunParams) (t : List Event)
    (h : runPipelineLogic env params = some t)
    (hsched : env.schedulerOk = false) :
    Event.updateDeploymentStatus "deploying" ∉ t ∧
    (finalDeploymentStatus t = none ∨ finalDeploymentStatus t = some "failed") ∧
    executePipeline dockerScenarioA cfgScenarioA
      = ([⟨"b", "success", some 0⟩, ⟨"t", "failed", some 1⟩], false) := by
  have hscen : executePipeline dockerScenarioA cfgScenarioA
      = ([⟨"b", "success", some 0⟩, ⟨"t", "failed", some 1⟩], false) := by
    decide
  obtain ⟨hlen, pre, hpre, hcases⟩ := runPipelineLogic_shape env params t h
  have hfm : pre.filterMap Event.deploymentStatus? = [] :=
    filterMap_createJob_nil _ (fun n => rfl) pre hpre
  rcases hcases with h1 | ⟨h2, -⟩ | ⟨h3, -⟩ | ⟨h4, -⟩ | ⟨-, htag, -⟩
    | ⟨-, htag, -⟩ | ⟨c0, -, -, htag, -⟩
  · subst h1
    exact ⟨by decide, Or.inl (by decide), hscen⟩
  · rw [h2]
    refine ⟨not_mem_createJob _ pre hpre, Or.inl ?_, hscen⟩
    simp [finalDeploymentStatus, hfm]
  · subst h3
    refine ⟨?_, Or.inl ?_, hscen⟩
    · intro hmem
      rcases List.mem_append.mp hmem with hm | hm
      · exact not_mem_createJob _ pre hpre hm
      · simp at hm
    · simp [finalDeploymentStatus, List.filterMap_append, hfm,
        Event.deploymentStatus?]
  · subst h4
    refine ⟨?_, Or.inr ?_, hscen⟩
    · intro hmem
      rcases List.mem_append.mp hmem with hm | hm
      · exact not_mem_createJob _ pre hpre hm
      · simp at hm
    · simp [finalDeploymentStatus, List.filterMap_append, hfm,
        Event.deploymentStatus?]
  · rw [hsched] at htag; cases htag
  · rw [hsched] at htag; cases htag
  · rw [hsched] at htag; cases htag

/-- Witness for C3 (amended) at the scenario A environment. -/
theorem deployment_never_deploying_witness :
    Event.updateDeploymentStatus "deploying"
      ∉ [Event.createJob "b", Event.createJob "t", Event.createDeployment,
         Event.schedulerExec, Event.updatePipelineStatus "failed",
         Event.updateDeploymentStatus "failed"] ∧
    (finalDeploymentStatus
        [Event.createJob "b", Event.createJob "t", Event.createDeployment,
         Event.schedulerExec, Event.updatePipelineStatus "failed",
         Event.updateDeploymentStatus "failed"] = none ∨
     finalDeploymentStatus
        [Event.createJob "b", Event.createJob "t", Event.createDeployment,
         Event.schedulerExec, Event.updatePipelineStatus "failed",
         Event.updateDeploymentStatus "failed"] = some "failed") := by
  have h := deployment_never_deploying_amended envScenarioA paramsStd
    [Event.createJob "b", Event.createJob "t", Event.createDeployment,
     Event.schedulerExec, Event.updatePipelineStatus "failed",
     Event.updateDeploymentStatus "failed"] (by decide) (by decide)
  exact ⟨h.1, h.2.1⟩

/-- C4: the deployment executor is invoked at most twice per run (the one
initial attempt plus at most one rollback attempt — no retry loop), and at
most once when the first deployment attempt does not fail; when no prior
successful pipeline exists and the deployment fails, rollback is skipped
entirely — no rollback-start marker is logged, the executor is not
re-invoked — and the deployment status is set to `failed`. -/
theorem rollback_at_most_once (env : RunEnv) (params : PipelineRunParams)
    (t : List Event) (h : runPipelineLogic env params = some t) :
    countDeployExec t ≤ 2 ∧
    (env.deployErr = false → countDeployExec t ≤ 1) ∧
    (env.lastSuccessful = none → env.deployErr = true →
      countDeployExec t ≤ 1 ∧
      t.countP Event.isDeploymentLog = 0 ∧
      (1 ≤ countDeployExec t → finalDeploymentStatus t = some "failed")) := by
  obtain ⟨hlen, pre, hpre, hcases⟩ := runPipelineLogic_shape env params t h
  have hcnt : pre.countP Event.isDeployExec = 0 :=
    countP_createJob_zero _ (fun n => rfl) pre hpre
  have hlog : pre.countP Event.isDeploymentLog = 0 :=
    countP_createJob_zero _ (fun n => rfl) pre hpre
  have hfm : pre.filterMap Event.deploymentStatus? = [] :=
    filterMap_createJob_nil _ (fun n => rfl) pre hpre
  rcases hcases with h1 | ⟨h2, -⟩ | ⟨h3, -⟩ | ⟨h4, -⟩ | ⟨h5, -, hde⟩
    | ⟨h6, -, hde, -⟩ | ⟨c0, hls, -, -, hde, h7⟩
  · subst h1
    exact ⟨by decide, fun _ => by decide, fun _ _ => by decide⟩
  · rw [h2]
    have hc : countDeployExec pre = 0 := hcnt
    exact ⟨by omega, fun _ => by omega,
      fun _ _ => ⟨by omega, hlog, fun hge => absurd hge (by omega)⟩⟩
  · subst h3
    have hc : countDeployExec (pre ++ [Event.createDeployment]) = 0 := by
      simp [countDeployExec, List.countP_append, List.countP_cons,
        Event.isDeployExec, hcnt]
    have hl : (pre ++ [Event.createDeployment]).countP
        Event.isDeploymentLog = 0 := by
      simp [List.countP_append, List.countP_cons, Event.isDeploymentLog, hlog]
    exact ⟨by omega, fun _ => by omega,
      fun _ _ => ⟨by omega, hl, fun hge => absurd hge (by omega)⟩⟩
  · subst h4
    have hc : countDeployExec (pre ++ [Event.createDeployment,
        Event.schedulerExec, Event.updatePipelineStatus "failed",
        Event.updateDeploymentStatus "failed"]) = 0 := by
      simp [countDeployExec, List.countP_append, List.countP_cons,
        Event.isDeployExec, hcnt]
    have hl : (pre ++ [Event.createDeployment, Event.schedulerExec,
        Event.updatePipelineStatus "failed",
        Event.updateDeploymentStatus "failed"]).countP
        Event.isDeploymentLog = 0 := by
      simp [List.countP_append, List.countP_cons, Event.isDeploymentLog, hlog]
    exact ⟨by omega, fun _ => by omega,
      fun _ _ => ⟨by omega, hl, fun hge => absurd hge (by omega)⟩⟩
  · subst h5
    have hc : countDeployExec (pre ++ [Event.createDeployment,
        Event.schedulerExec, Event.updateDeploymentStatus "deploying",
        Event.deployExec params.commitHash,
        Event.updateDeploymentStatus "success",
        Event.updatePipelineStatus "success"]) = 1 := by
      simp [countDeployExec, List.countP_append, List.countP_cons,
        Event.isDeployExec, hcnt]
    refine ⟨by omega, fun _ => by omega, fun _ hde2 => ?_⟩
    simp [hde2] at hde
  · subst h6
    have hc : countDeployExec (pre ++ [Event.createDeployment,
        Event.schedulerExec, Event.updateDeploymentStatus "deploying",
        Event.deployExec params.commitHash,
        Event.updateDeploymentStatus "failed",
        Event.updatePipelineStatus "failed",
        Event.updateDeploymentStatus "failed"]) = 1 := by
      simp [countDeployExec, List.countP_append, List.countP_cons,
        Event.isDeployExec, hcnt]
    have hl : (pre ++ [Event.createDeployment, Event.schedulerExec,
        Event.updateDeploymentStatus "deploying",
        Event.deployExec params.commitHash,
        Event.updateDeploymentStatus "failed",
        Event.updatePipelineStatus "failed",
        Event.updateDeploymentStatus "failed"]).countP
        Event.isDeploymentLog = 0 := by
      simp [List.countP_append, List.countP_cons, Event.isDeploymentLog, hlog]
    have hfinal : finalDeploymentStatus (pre ++ [Event.createDeployment,
        Event.schedulerExec, Event.updateDeploymentStatus "deploying",
        Event.deployExec params.commitHash,
        Event.updateDeploymentStatus "failed",
        Event.updatePipelineStatus "failed",
        Event.updateDeploymentStatus "failed"]) = some "failed" := by
      simp [finalDeploymentStatus, List.filterMap_append, hfm,
        Event.deploymentStatus?]
    refine ⟨by omega, fun hde2 => ?_, fun _ _ => ⟨by omega, hl, fun _ => hfinal⟩⟩
    simp [hde2] at hde
  · rcases h7 with h7 | h7 <;> subst h7
    · have hc : countDeployExec (pre ++ [Event.createDeployment,
          Event.schedulerExec, Event.updateDeploymentStatus "deploying",
          Event.deployExec params.commitHash,
          Event.createDeploymentLog "=== ROLLBACK STARTED ===",
          Event.deployExec c0,
          Event.updateDeploymentStatus "rolled_back",
          Event.updatePipelineStatus "failed",
          Event.updateDeploymentStatus "failed"]) = 2 := by
        simp [countDeployExec, List.countP_append, List.countP_cons,
          Event.isDeployExec, hcnt]
      refine ⟨by omega, fun hde2 => ?_, fun hls2 _ => ?_⟩
      · simp [hde2] at hde
      · rw [hls2] at hls; cases hls
    · have hc : countDeployExec (pre ++ [Event.createDeployment,
          Event.schedulerExec, Event.updateDeploymentStatus "deploying",
          Event.deployExec params.commitHash,
          Event.createDeploymentLog "=== ROLLBACK STARTED ===",
          Event.deployExec c0,
          Event.updateDeploymentStatus "failed",
          Event.updatePipelineStatus "failed",
          Event.updateDeploymentStatus "failed"]) = 2 := by
        simp [countDeployExec, List.countP_append, List.countP_cons,
          Event.isDeployExec, hcnt]
      refine ⟨by omega, fun hde2 => ?_, fun hls2 _ => ?_⟩
      · simp [hde2] at hde
      · rw [hls2] at hls; cases hls

/-- Witness for C4 at the scenario D environment (no prior success). -/
theorem rollback_at_most_once_witness :
    countDeployExec
        [Event.createJob "b", Event.createJob "t", Event.createDeployment,
         Event.schedulerExec, Event.updateDeploymentStatus "deploying",
         Event.deployExec "deadbeef1234", Event.updateDeploymentStatus "failed",
         Event.updatePipelineStatus "failed",
         Event.updateDeploymentStatus "failed"] ≤ 1 ∧
    finalDeploymentStatus
        [Event.createJob "b", Event.createJob "t", Event.createDeployment,
         Event.schedulerExec, Event.updateDeploymentStatus "deploying",
         Event.deployExec "deadbeef1234", Event.updateDeploymentStatus "failed",
         Event.updatePipelineStatus "failed",
         Event.updateDeploymentStatus "failed"] = some "failed" := by
  have h := rollback_at_most_once envScenarioD paramsStd
    [Event.createJob "b", Event.createJob "t", Event.createDeployment,
     Event.schedulerExec, Event.updateDeploymentStatus "deploying",
     Event.deployExec "deadbeef1234", Event.updateDeploymentStatus "failed",
     Event.updatePipelineStatus "failed",
     Event.updateDeploymentStatus "failed"] (by decide)
  have h3 := h.2.2 rfl rfl
  exact ⟨h3.1, h3.2.2 (by decide)⟩

/-- C7 (counterexample): not every persistence failure is swallowed: when
the pre-create of job `b` fails, the orchestrator returns early and the
run is abandoned — no final pipeline status is ever written. -/
theorem createJob_failure_abandons_run :
    ¬ ∀ (env : RunEnv) (params : PipelineRunParams) (t : List Event),
        runPipelineLogic env params = some t →
        (finalPipelineStatus t).isSome = true := by
  intro hclaim
  exact absurd
    (hclaim envCreateJobFail paramsStd [Event.createJob "b"] (by decide))
    (by decide)

/-- C7 (amended): failures of status updates and log writes are swallowed
and never alter control flow, but a failed `CreateJob` or
`CreatePendingDeployment` aborts the run early; whenever those pre-create
writes succeed, the run continues to completion and ends by persisting a
final pipeline status. -/
theorem persistence_failure_policy_amended (env : RunEnv)
    (params : PipelineRunParams) (t : List Event)
    (h : runPipelineLogic env params = some t)
    (hjobs : ∀ n, env.createJobOk n = true)
    (hdep : env.createDeploymentOk = true) :
    ∃ s, finalPipelineStatus t = some s := by
  obtain ⟨hlen, pre, hpre, hcases⟩ := runPipelineLogic_shape env params t h
  have hfm : pre.filterMap Event.pipelineStatus? = [] :=
    filterMap_createJob_nil _ (fun n => rfl) pre hpre
  rcases hcases with h1 | ⟨h2, n, hn⟩ | ⟨h3, htag⟩ | ⟨h4, -⟩ | ⟨h5, -⟩
    | ⟨h6, -⟩ | ⟨c0, -, -, -, -, h7⟩
  · subst h1
    exact ⟨"failed", by decide⟩
  · rw [hjobs n] at hn; cases hn
  · rw [hdep] at htag; cases htag
  · subst h4
    exact ⟨"failed", by simp [finalPipelineStatus, List.filterMap_append,
      hfm, Event.pipelineStatus?]⟩
  · subst h5
    exact ⟨"success", by simp [finalPipelineStatus, List.filterMap_append,
      hfm, Event.pipelineStatus?]⟩
  · subst h6
    exact ⟨"failed", by simp [finalPipelineStatus, List.filterMap_append,
      hfm, Event.pipelineStatus?]⟩
  · rcases h7 with h7 | h7 <;> subst h7 <;>
      exact ⟨"failed", by simp [finalPipelineStatus, List.filterMap_append,
        hfm, Event.pipelineStatus?]⟩

/-- Witness for C7 (amended) at the scenario C environment. -/
theorem persistence_failure_policy_witness :
    ∃ s, finalPipelineStatus
        [Event.createJob "b", Event.createJob "t", Event.createDeployment,
         Event.schedulerExec, Event.updateDeploymentStatus "deploying",
         Event.deployExec "deadbeef1234",
         Event.createDeploymentLog "=== ROLLBACK STARTED ===",
         Event.deployExec "c0c0c0c0c0",
         Event.updateDeploymentStatus "rolled_back",
         Event.updatePipelineStatus "failed",
         Event.updateDeploymentStatus "failed"] = some s :=
  persistence_failure_policy_amended envScenarioC paramsStd _ (by decide)
    (fun n => rfl) rfl

/-- C10: a commit hash shorter than 8 characters makes the orchestrator
panic while building the workspace directory name (the unguarded
`CommitHash[:8]` slice), so no trace is produced; every completed run had
a commit hash of length at least 8; and a rollback deployment (a second
executor invocation) only ever happens when the rollback commit hash also
has length at least 8 — the rollback workspace slice is equally
unguarded. -/
theorem commitHash_guard (env : RunEnv) (params : PipelineRunParams) :
    (params.commitHash.length < 8 → runPipelineLogic env params = none) ∧
    (∀ t, runPipelineLogic env params = some t →
      8 ≤ params.commitHash.length) ∧
    (∀ t c0, runPipelineLogic env params = some t →
      env.lastSuccessful = some c0 → c0.length < 8 →
      countDeployExec t ≤ 1) := by
  refine ⟨?_, ?_, ?_⟩
  · intro hlt
    unfold runPipelineLogic
    have hn : ¬ (8 ≤ params.commitHash.length) := by omega
    have hnone : goSliceFirst params.commitHash 8 = none := by
      simp [goSliceFirst, hn]
    rw [hnone]
  · intro t ht
    exact (runPipelineLogic_shape env params t ht).1
  · intro t c0 ht hls hlt
    obtain ⟨hlen, pre, hpre, hcases⟩ := runPipelineLogic_shape env params t ht
    have hcnt : pre.countP Event.isDeployExec = 0 :=
      countP_createJob_zero _ (fun n => rfl) pre hpre
    rcases hcases with h1 | ⟨h2, -⟩ | ⟨h3, -⟩ | ⟨h4, -⟩ | ⟨h5, -⟩
      | ⟨h6, -⟩ | ⟨c0', hls', hlen0, -⟩
    · subst h1; decide
    · rw [h2]
      have hc : countDeployExec pre = 0 := hcnt
      omega
    · subst h3
      have hc : countDeployExec (pre ++ [Event.createDeployment]) = 0 := by
        simp [countDeployExec, List.countP_append, List.countP_cons,
          Event.isDeployExec, hcnt]
      omega
    · subst h4
      have hc : countDeployExec (pre ++ [Event.createDeployment,
          Event.schedulerExec, Event.updatePipelineStatus "failed",
          Event.updateDeploymentStatus "failed"]) = 0 := by
        simp [countDeployExec, List.countP_append, List.countP_cons,
          Event.isDeployExec, hcnt]
      omega
    · subst h5
      have hc : countDeployExec (pre ++ [Event.createDeployment,
          Event.schedulerExec, Event.updateDeploymentStatus "deploying",
          Event.deployExec params.commitHash,
          Event.updateDeploymentStatus "success",
          Event.updatePipelineStatus "success"]) = 1 := by
        simp [countDeployExec, List.countP_append, List.countP_cons,
          Event.isDeployExec, hcnt]
      omega
    · subst h6
      have hc : countDeployExec (pre ++ [Event.createDeployment,
          Event.schedulerExec, Event.updateDeploymentStatus "deploying",
          Event.deployExec params.commitHash,
          Event.updateDeploymentStatus "failed",
          Event.updatePipelineStatus "failed",
          Event.updateDeploymentStatus "failed"]) = 1 := by
        simp [countDeployExec, List.countP_append, List.countP_cons,
          Event.isDeployExec, hcnt]
      omega
    · rw [hls] at hls'
      have hcc : c0' = c0 := (Option.some.inj hls').symm
      subst hcc
      omega

/-- Witness for C10: a 3-character commit hash panics the run. -/
theorem commitHash_guard_witness :
    runPipelineLogic envScenarioC { paramsStd with commitHash := "abc" }
      = none :=
  (commitHash_guard envScenarioC _).1 (by decide)

/-! ## Lemmas on SanitizeProjectName -/

/-- A sanitizer-legal character (in `[a-z0-9]` or the separator). -/
theorem goToLower_fix (c : Char)
    (h : (isLowerAlnum c || (c == '-')) = true) : goToLower c = c := by
  unfold goToLower
  rcases Bool.or_eq_true_iff.mp h with ha | hd
  · unfold isLowerAlnum at ha
    rcases Bool.or_eq_true_iff.mp ha with h1 | h1 <;>
    · rw [Bool.and_eq_true, decide_eq_true_iff, decide_eq_true_iff] at h1
      rw [if_neg (by omega)]
  · have : c = '-' := by simpa using hd
    subst this
    rw [if_neg (by decide)]

/-- A lowercase alphanumeric character is not the separator. -/
theorem isLowerAlnum_ne_dash (c : Char) (h : isLowerAlnum c = true) :
    (c == '-') = false := by
  unfold isLowerAlnum at h
  rcases Bool.or_eq_true_iff.mp h with h1 | h1 <;>
  · rw [Bool.and_eq_true, decide_eq_true_iff, decide_eq_true_iff] at h1
    rw [beq_eq_false_iff_ne]
    intro hq
    subst hq
    exact absurd h1 (by decide)

/-- Every character the run-collapser emits is legal. -/
theorem collapseRunsAux_chars :
    ∀ (l : List Char) (b : Bool) (c : Char), c ∈ collapseRunsAux b l →
      (isLowerAlnum c || (c == '-')) = true
  | [], b, c => by simp [collapseRunsAux]
  | a :: rest, b, c => by
    intro hc
    by_cases ha : isLowerAlnum a = true
    · rw [collapseRunsAux, if_pos ha] at hc
      rcases List.mem_cons.mp hc with rfl | hc
      · simp [ha]
      · exact collapseRunsAux_chars rest false c hc
    · rw [collapseRunsAux, if_neg ha] at hc
      by_cases hb : b = true
      · rw [if_pos hb] at hc
        exact collapseRunsAux_chars rest true c hc
      · rw [if_neg hb] at hc
        rcases List.mem_cons.mp hc with rfl | hc
        · simp
        · exact collapseRunsAux_chars rest true c hc

/-- Inside a run, the collapser's output never starts with the separator. -/
theorem collapseRunsAux_true_head :
    ∀ l : List Char, headIsDash (collapseRunsAux true l) = false
  | [] => rfl
  | a :: rest => by
    by_cases ha : isLowerAlnum a = true
    · rw [collapseRunsAux, if_pos ha]
      simpa [headIsDash] using isLowerAlnum_ne_dash a ha
    · rw [collapseRunsAux, if_neg ha, if_pos rfl]
      exact collapseRunsAux_true_head rest

/-- Prepending a character that is not a dash-before-dash preserves
`noDoubleDash`. -/
theorem noDoubleDash_cons (a : Char) (l : List Char)
    (h : (a == '-') = false ∨ headIsDash l = false)
    (hl : noDoubleDash l = true) : noDoubleDash (a :: l) = true := by
  cases l with
  | nil => rfl
  | cons b bs =>
    simp only [noDoubleDash, Bool.and_eq_true]
    refine ⟨?_, hl⟩
    rcases h with h | h
    · simp [h]
    · simp only [headIsDash] at h
      simp [h]

/-- The collapser never emits two adjacent separators. -/
theorem collapseRunsAux_noDoubleDash :
    ∀ (l : List Char) (b : Bool), noDoubleDash (collapseRunsAux b l) = true
  | [], b => rfl
  | a :: rest, b => by
    by_cases ha : isLowerAlnum a = true
    · rw [collapseRunsAux, if_pos ha]
      exact noDoubleDash_cons a _ (Or.inl (isLowerAlnum_ne_dash a ha))
        (collapseRunsAux_noDoubleDash rest false)
    · rw [collapseRunsAux, if_neg ha]
      by_cases hb : b = true
      · rw [if_pos hb]
        exact collapseRunsAux_noDoubleDash rest true
      · rw [if_neg hb]
        exact noDoubleDash_cons '-' _ (Or.inr (collapseRunsAux_true_head rest))
          (collapseRunsAux_noDoubleDash rest true)

/-- `trimRight` only removes elements (membership is preserved downward). -/
theorem trimRight_mem :
    ∀ (l : List Char) (c : Char), c ∈ trimRight l → c ∈ l
  | [], c => by simp [trimRight]
  | a :: rest, c => by
    intro hc
    rw [trimRight] at hc
    cases hr : trimRight rest with
    | nil =>
      rw [hr] at hc
      by_cases hd : a = '-'
      · rw [if_pos hd] at hc; cases hc
      · rw [if_neg hd] at hc
        rw [List.mem_singleton.mp hc]
        exact List.mem_cons_self _ _
    | cons d ds =>
      rw [hr] at hc
      rcases List.mem_cons.mp hc with rfl | hc
      · exact List.mem_cons_self c rest
      · exact List.mem_cons_of_mem a (trimRight_mem rest c (hr ▸ hc))

/-- `trimRight` keeps the head of the list when it survives. -/
theorem trimRight_head (l : List Char) (d : Char) (ds : List Char)
    (h : trimRight l = d :: ds) : ∃ tl, l = d :: tl := by
  cases l with
  | nil => cases h
  | cons a rest =>
    rw [trimRight] at h
    cases hr : trimRight rest with
    | nil =>
      rw [hr] at h
      by_cases hd : a = '-'
      · rw [if_pos hd] at h; cases h
      · rw [if_neg hd] at h
        exact ⟨rest, by rw [← (List.cons.inj h).1]⟩
    | cons e es =>
      rw [hr] at h
      exact ⟨rest, by rw [← (List.cons.inj h).1]⟩

/-- `trimRight` preserves `noDoubleDash`. -/
theorem trimRight_noDoubleDash :
    ∀ l : List Char, noDoubleDash l = true → noDoubleDash (trimRight l) = true
  | [] => fun _ => rfl
  | a :: rest => by
    intro h
    have htail : noDoubleDash rest = true := by
      cases rest with
      | nil => rfl
      | cons b bs =>
        simp only [noDoubleDash, Bool.and_eq_true] at h
        exact h.2
    rw [trimRight]
    cases hr : trimRight rest with
    | nil =>
      by_cases hd : a = '-'
      · rw [if_pos hd]; rfl
      · rw [if_neg hd]; rfl
    | cons d ds =>
      obtain ⟨tl, htl⟩ := trimRight_head rest d ds hr
      have hnd : noDoubleDash (d :: ds) = true := by
        rw [← hr]
        exact trimRight_noDoubleDash rest htail
      refine noDoubleDash_cons a (d :: ds) ?_ hnd
      subst htl
      simp only [noDoubleDash, Bool.and_eq_true] at h
      by_cases had : (a == '-') = true
      · right
        have := h.1
        simp only [had, Bool.true_and] at this
        simpa [headIsDash] using this
      · left
        simpa using had

/-- The result of `trimRight` never ends with the separator. -/
theorem trimRight_last :
    ∀ l : List Char, lastIsDash (trimRight l) = false
  | [] => rfl
  | a :: rest => by
    rw [trimRight]
    cases hr : trimRight rest with
    | nil =>
      by_cases hd : a = '-'
      · rw [if_pos hd]; rfl
      · rw [if_neg hd]
        simpa [lastIsDash] using hd
    | cons d ds =>
      have := trimRight_last rest
      rw [hr] at this
      simpa [lastIsDash] using this

/-- `trimRight` preserves "does not start with the separator". -/
theorem trimRight_headIsDash (l : List Char) (h : headIsDash l = false) :
    headIsDash (trimRight l) = false := by
  cases l with
  | nil => rfl
  | cons a rest =>
    rw [trimRight]
    cases hr : trimRight rest with
    | nil =>
      by_cases hd : a = '-'
      · rw [if_pos hd]; rfl
      · rw [if_neg hd]
        simpa [headIsDash] using h
    | cons d ds =>
      simpa [headIsDash] using h

/-- `trimRight` is the identity on lists without a trailing separator. -/
theorem trimRight_id :
    ∀ l : List Char, lastIsDash l = false → trimRight l = l
  | [] => fun _ => rfl
  | a :: rest => by
    intro h
    rw [trimRight]
    cases rest with
    | nil =>
      have hd : ¬ a = '-' := by simpa [lastIsDash] using h
      simp [trimRight, hd]
    | cons b bs =>
      have htail : lastIsDash (b :: bs) = false := by
        simpa [lastIsDash] using h
      rw [trimRight_id (b :: bs) htail]

/-- Dropping leading separators yields a list not starting with one. -/
theorem dropWhileDash_head :
    ∀ l : List Char, headIsDash (l.dropWhile (fun c => c == '-')) = false
  | [] => rfl
  | a :: rest => by
    by_cases hd : (a == '-') = true
    · simp only [List.dropWhile_cons, hd, if_true]
      exact dropWhileDash_head rest
    · have hfd : (a == '-') = false := by simpa using hd
      simp [List.dropWhile_cons, hfd, headIsDash]

/-- Tails inherit `noDoubleDash`. -/
theorem noDoubleDash_tail (a : Char) (l : List Char)
    (h : noDoubleDash (a :: l) = true) : noDoubleDash l = true := by
  cases l with
  | nil => rfl
  | cons b bs =>
    simp only [noDoubleDash, Bool.and_eq_true] at h
    exact h.2

/-- `dropWhile` preserves `noDoubleDash`. -/
theorem dropWhile_noDoubleDash (p : Char → Bool) :
    ∀ l : List Char, noDoubleDash l = true →
      noDoubleDash (l.dropWhile p) = true
  | [] => fun _ => rfl
  | a :: rest => by
    intro h
    by_cases hp : p a = true
    · simp only [List.dropWhile_cons, hp, if_true]
      exact dropWhile_noDoubleDash p rest (noDoubleDash_tail a rest h)
    · have hfp : p a = false := by simpa using hp
      simpa [List.dropWhile_cons, hfp] using h

/-- `dropWhile` only removes elements. -/
theorem dropWhile_mem (p : Char → Bool) :
    ∀ (l : List Char) (c : Char), c ∈ l.dropWhile p → c ∈ l
  | [], c => by simp
  | a :: rest, c => by
    intro hc
    by_cases hp : p a = true
    · simp only [List.dropWhile_cons, hp, if_true] at hc
      exact List.mem_cons_of_mem a (dropWhile_mem p rest c hc)
    · have hfp : p a = false := by simpa using hp
      simp only [List.dropWhile_cons, hfp, Bool.false_eq_true,
        if_false] at hc
      exact hc

/-- `dropWhile` is the identity when the head does not match. -/
theorem dropWhileDash_id (l : List Char) (h : headIsDash l = false) :
    l.dropWhile (fun c => c == '-') = l := by
  cases l with
  | nil => rfl
  | cons a rest =>
    have hd : (a == '-') = false := by simpa [headIsDash] using h
    simp [List.dropWhile_cons, hd]

/-- Mapping a function that fixes every element is the identity. -/
theorem map_fix_id (f : Char → Char) :
    ∀ l : List Char, (∀ c ∈ l, f c = c) → l.map f = l
  | [] => fun _ => rfl
  | a :: rest => by
    intro h
    rw [List.map_cons, h a (by simp), map_fix_id f rest
      (fun c hc => h c (by simp [hc]))]

/-- On an already collapsed list (legal characters, single separators, no
trailing separator) the collapser is the identity; starting inside a run
additionally requires no leading separator. -/
theorem collapseRunsAux_fix :
    ∀ l : List Char,
      (∀ c ∈ l, (isLowerAlnum c || (c == '-')) = true) →
      noDoubleDash l = true → lastIsDash l = false →
      (collapseRunsAux false l = l ∧
       (headIsDash l = false → collapseRunsAux true l = l))
  | [] => by
    intro _ _ _
    exact ⟨rfl, fun _ => rfl⟩
  | a :: rest => by
    intro hchars hnd hlast
    have htail : noDoubleDash rest = true := noDoubleDash_tail a rest hnd
    have hlastt : lastIsDash rest = false := by
      cases rest with
      | nil => rfl
      | cons b bs => simpa [lastIsDash] using hlast
    have hcharst : ∀ c ∈ rest, (isLowerAlnum c || (c == '-')) = true :=
      fun c hc => hchars c (by simp [hc])
    have ih := collapseRunsAux_fix rest hcharst htail hlastt
    constructor
    · by_cases ha : isLowerAlnum a = true
      · rw [collapseRunsAux, if_pos ha, ih.1]
      · have had : a = '-' := by
          have := hchars a (by simp)
          simp [ha] at this
          simpa using this
        rw [collapseRunsAux, if_neg ha, if_neg (by simp)]
        cases rest with
        | nil =>
          subst had
          simp [lastIsDash] at hlast
        | cons b bs =>
          have hbd : headIsDash (b :: bs) = false := by
            subst had
            simp only [noDoubleDash, Bool.and_eq_true] at hnd
            have := hnd.1
            simpa [headIsDash] using this
          rw [ih.2 hbd]
          subst had
          rfl
    · intro hhead
      have ha : isLowerAlnum a = true := by
        have hch := hchars a (by simp)
        rcases Bool.or_eq_true_iff.mp hch with h1 | h1
        · exact h1
        · simp [headIsDash, h1] at hhead
      rw [collapseRunsAux, if_pos ha, ih.1]

/-- C9: `SanitizeProjectName` produces only lowercase alphanumerics and
single `-` separators, never adjacent separators, never a leading or
trailing separator, and is idempotent. -/
theorem sanitizeProjectName_spec (s : String) :
    (∀ c ∈ (SanitizeProjectName s).data,
      (isLowerAlnum c || (c == '-')) = true) ∧
    noDoubleDash (SanitizeProjectName s).data = true ∧
    headIsDash (SanitizeProjectName s).data = false ∧
    lastIsDash (SanitizeProjectName s).data = false ∧
    SanitizeProjectName (SanitizeProjectName s) = SanitizeProjectName s := by
  have hdata : (SanitizeProjectName s).data
      = trimDashes (collapseRuns (s.data.map goToLower)) := rfl
  set L := s.data.map goToLower with hL
  have hchars : ∀ c ∈ trimDashes (collapseRuns L),
      (isLowerAlnum c || (c == '-')) = true := by
    intro c hc
    unfold trimDashes at hc
    exact collapseRunsAux_chars L false c
      (dropWhile_mem _ _ c (trimRight_mem _ c hc))
  have hnd : noDoubleDash (trimDashes (collapseRuns L)) = true :=
    trimRight_noDoubleDash _
      (dropWhile_noDoubleDash _ _ (collapseRunsAux_noDoubleDash L false))
  have hhead : headIsDash (trimDashes (collapseRuns L)) = false :=
    trimRight_headIsDash _ (dropWhileDash_head _)
  have hlast : lastIsDash (trimDashes (collapseRuns L)) = false :=
    trimRight_last _
  refine ⟨by rw [hdata]; exact hchars, by rw [hdata]; exact hnd,
    by rw [hdata]; exact hhead, by rw [hdata]; exact hlast, ?_⟩
  have hmap : (trimDashes (collapseRuns L)).map goToLower
      = trimDashes (collapseRuns L) :=
    map_fix_id goToLower _ (fun c hc => goToLower_fix c (hchars c hc))
  have hcoll : collapseRuns (trimDashes (collapseRuns L))
      = trimDashes (collapseRuns L) :=
    (collapseRunsAux_fix _ hchars hnd hlast).1
  have htrim : trimDashes (trimDashes (collapseRuns L))
      = trimDashes (collapseRuns L) := by
    have h1 : (trimDashes (collapseRuns L)).dropWhile (fun c => c == '-')
        = trimDashes (collapseRuns L) := dropWhileDash_id _ hhead
    have h2 : trimRight (trimDashes (collapseRuns L))
        = trimDashes (collapseRuns L) := trimRight_id _ hlast
    calc trimDashes (trimDashes (collapseRuns L))
        = trimRight ((trimDashes (collapseRuns L)).dropWhile
            (fun c => c == '-')) := rfl
      _ = trimRight (trimDashes (collapseRuns L)) := by rw [h1]
      _ = trimDashes (collapseRuns L) := h2
  have hstep : SanitizeProjectName (SanitizeProjectName s)
      = ⟨trimDashes (collapseRuns
          ((SanitizeProjectName s).data.map goToLower))⟩ := rfl
  rw [hstep, hdata, hmap, hcoll, htrim, ← hdata]

/-- Witness for C9 at a concrete mixed-case input. -/
theorem sanitizeProjectName_spec_witness :
    SanitizeProjectName (SanitizeProjectName "My Repo!!")
      = SanitizeProjectName "My Repo!!" :=
  (sanitizeProjectName_spec "My Repo!!").2.2.2.2

end DockNDeploy
